import Mathlib

/-
  Verification development for query.js, a browser-side GraphQL client for the
  Shopify storefront API.  The embedding models the session-cached version of
  the module (default export `Query`, `buildQuery`, `buildFields`,
  `buildListArgumentValue`, `buildStorageKey`).

  JavaScript strings are modelled as `List Char`; `String.prototype.replace`
  with a plain string pattern (first-occurrence replacement) is `replaceFirst`;
  the regex `/#import.*\n/g` pass is `stripImports`.
-/

abbrev Str := List Char

def lit (s : String) : Str := s.toList

/-- JS `Array.prototype.join(sep)`. -/
def joinSep (sep : Str) : List Str → Str
  | [] => []
  | [x] => x
  | x :: rest => x ++ sep ++ joinSep sep rest

/-- Whether `pat` occurs as a contiguous substring of `s` (JS `includes`). -/
def containsSub (s pat : Str) : Bool :=
  match s with
  | [] => pat.isPrefixOf ([] : Str)
  | c :: rest => pat.isPrefixOf (c :: rest) || containsSub rest pat

/-- JS `String.prototype.replace(pat, rep)` with a string pattern: replaces
    the first occurrence of `pat` only; returns `s` unchanged when `pat` does
    not occur. -/
def replaceFirst (s pat rep : Str) : Str :=
  match s with
  | [] => []
  | c :: rest =>
    if pat.isPrefixOf (c :: rest) then rep ++ (c :: rest).drop pat.length
    else c :: replaceFirst rest pat rep

/-- JS `String.prototype.trim`, on the whitespace characters that matter for
    GraphQL sources. -/
def trimLeft (s : Str) : Str := s.dropWhile Char.isWhitespace

def trimRight (s : Str) : Str := (s.reverse.dropWhile Char.isWhitespace).reverse

def trim (s : Str) : Str := trimRight (trimLeft s)

def importTag : Str := lit "#import"

/-- The ECMAScript line terminators, which `.` in a JS regex does not match. -/
def isLineTerminator (c : Char) : Bool :=
  c == '\n' || c == '\r' || c == '\u2028' || c == '\u2029'

/-- One attempted match of `/#import.*\n/` at the start of `s`: the literal
    `#import`, then a greedy run of characters that are not line terminators
    (ECMAScript `.` matches neither `\n` nor `\r` nor U+2028/U+2029), then a
    literal `\n`.  Returns the remainder after the match, `none` when the
    pattern does not match here — in particular a `#import` line terminated by
    `\r\n` or by the end of the string does not match. -/
def importMatchRest (s : Str) : Option Str :=
  if importTag.isPrefixOf s then
    match (s.drop 7).dropWhile (fun ch => !isLineTerminator ch) with
    | [] => none
    | ch :: rest2 => if ch = '\n' then some rest2 else none
  else none

/-- One global pass of the regex `/#import.*\n/g` replaced by the empty
    string: scan left to right, at each position drop a match when one starts
    there and continue after it, otherwise keep the character.  `fuel` bounds
    the recursion by the length of the string. -/
def stripImportsAux : Nat → Str → Str
  | 0, s => s
  | _ + 1, [] => []
  | fuel + 1, c :: rest =>
    match importMatchRest (c :: rest) with
    | some rest2 => stripImportsAux fuel rest2
    | none => c :: stripImportsAux fuel rest

def stripImports (s : Str) : Str := stripImportsAux s.length s

/-! ### Basic lemmas about the string operations -/

theorem isPrefixOf_iff_ex (p s : Str) : p.isPrefixOf s = true ↔ ∃ t, s = p ++ t := by
  induction p generalizing s with
  | nil => simp [List.isPrefixOf]
  | cons c pt ih =>
    cases s with
    | nil => simp [List.isPrefixOf]
    | cons d st =>
      simp only [List.isPrefixOf, Bool.and_eq_true, beq_iff_eq, ih, List.cons_append,
        List.cons.injEq]
      constructor
      · rintro ⟨rfl, t, rfl⟩; exact ⟨t, rfl, rfl⟩
      · rintro ⟨t, rfl, rfl⟩; exact ⟨rfl, t, rfl⟩

theorem isPrefixOf_append_self (p q : Str) : p.isPrefixOf (p ++ q) = true :=
  (isPrefixOf_iff_ex p (p ++ q)).mpr ⟨q, rfl⟩

theorem containsSub_iff (s pat : Str) :
    containsSub s pat = true ↔ ∃ a b, s = a ++ pat ++ b := by
  induction s with
  | nil =>
    simp only [containsSub, isPrefixOf_iff_ex]
    constructor
    · rintro ⟨t, ht⟩
      exact ⟨[], t, ht⟩
    · rintro ⟨a, b, hab⟩
      have ha : a = [] := by
        cases a with
        | nil => rfl
        | cons x xs => simp at hab
      subst ha
      exact ⟨b, by simpa using hab⟩
  | cons c rest ih =>
    simp only [containsSub, Bool.or_eq_true, isPrefixOf_iff_ex, ih]
    constructor
    · rintro (⟨t, ht⟩ | ⟨a, b, hab⟩)
      · exact ⟨[], t, by simpa using ht⟩
      · exact ⟨c :: a, b, by simp [hab]⟩
    · rintro ⟨a, b, hab⟩
      cases a with
      | nil => exact Or.inl ⟨b, by simpa using hab⟩
      | cons x xs =>
        simp only [List.cons_append, List.cons.injEq] at hab
        exact Or.inr ⟨xs, b, hab.2⟩

theorem containsSub_lift (x v y pat : Str) (h : containsSub v pat = true) :
    containsSub (x ++ v ++ y) pat = true := by
  rcases (containsSub_iff v pat).mp h with ⟨a, b, rfl⟩
  exact (containsSub_iff _ pat).mpr ⟨x ++ a, b ++ y, by simp⟩

theorem not_containsSub_of_lift (x v y pat : Str)
    (h : containsSub (x ++ v ++ y) pat = false) : containsSub v pat = false := by
  cases hv : containsSub v pat with
  | false => rfl
  | true => rw [containsSub_lift x v y pat hv] at h; exact h.symm ▸ rfl

theorem trim_split (s : Str) : ∃ a b, s = a ++ trim s ++ b := by
  have h1 : s = s.takeWhile Char.isWhitespace ++ trimLeft s :=
    (List.takeWhile_append_dropWhile Char.isWhitespace s).symm
  have h2 : trimLeft s = trim s ++ ((trimLeft s).reverse.takeWhile Char.isWhitespace).reverse := by
    have hrev : (trimLeft s).reverse =
        (trimLeft s).reverse.takeWhile Char.isWhitespace ++
          (trimLeft s).reverse.dropWhile Char.isWhitespace :=
      (List.takeWhile_append_dropWhile Char.isWhitespace (trimLeft s).reverse).symm
    calc trimLeft s = (trimLeft s).reverse.reverse := (List.reverse_reverse _).symm
    _ = ((trimLeft s).reverse.takeWhile Char.isWhitespace ++
          (trimLeft s).reverse.dropWhile Char.isWhitespace).reverse := by rw [← hrev]
    _ = ((trimLeft s).reverse.dropWhile Char.isWhitespace).reverse ++
          ((trimLeft s).reverse.takeWhile Char.isWhitespace).reverse := by
        rw [List.reverse_append]
    _ = trim s ++ ((trimLeft s).reverse.takeWhile Char.isWhitespace).reverse := rfl
  exact ⟨s.takeWhile Char.isWhitespace,
    ((trimLeft s).reverse.takeWhile Char.isWhitespace).reverse,
    by rw [List.append_assoc, ← h2, ← h1]⟩

theorem length_dropWhile_le (p : Char → Bool) (l : Str) :
    (l.dropWhile p).length ≤ l.length := by
  induction l with
  | nil => exact Nat.le_refl _
  | cons c rest ih =>
    rw [List.dropWhile_cons]
    by_cases h : p c = true
    · simp only [h, if_true]
      exact Nat.le_trans ih (by simp)
    · simp [h]

theorem importMatchRest_length (s rest2 : Str) (h : importMatchRest s = some rest2) :
    rest2.length + 1 ≤ s.length := by
  cases hpre : importTag.isPrefixOf s with
  | false =>
    unfold importMatchRest at h
    rw [hpre] at h
    simp at h
  | true =>
    unfold importMatchRest at h
    rw [hpre, if_pos rfl] at h
    cases heq : (s.drop 7).dropWhile (fun ch => !isLineTerminator ch) with
    | nil => rw [heq] at h; cases h
    | cons ch tail =>
      rw [heq] at h
      change (if ch = '\n' then some tail else none) = some rest2 at h
      by_cases hch : ch = '\n'
      · rw [if_pos hch] at h
        injection h with h2
        have h3 : (ch :: tail).length ≤ (s.drop 7).length := by
          rw [← heq]
          exact length_dropWhile_le _ _
        have h5 : 7 ≤ s.length := by
          rcases (isPrefixOf_iff_ex importTag s).mp hpre with ⟨t, rfl⟩
          rw [List.length_append]
          have h7 : importTag.length = 7 := rfl
          omega
        rw [List.length_drop] at h3
        subst h2
        simp only [List.length_cons] at h3
        omega
      · rw [if_neg hch] at h; cases h

theorem importMatchRest_none (s : Str) (h : importTag.isPrefixOf s = false) :
    importMatchRest s = none := by
  unfold importMatchRest
  rw [h]
  simp

theorem stripImportsAux_congr : ∀ (f₁ f₂ : Nat) (s : Str),
    s.length ≤ f₁ → s.length ≤ f₂ → stripImportsAux f₁ s = stripImportsAux f₂ s := by
  intro f₁
  induction f₁ with
  | zero =>
    intro f₂ s h1 _
    have : s = [] := List.length_eq_zero.mp (Nat.le_zero.mp h1)
    subst this
    cases f₂ <;> rfl
  | succ f ih =>
    intro f₂ s h1 h2
    cases s with
    | nil => cases f₂ <;> rfl
    | cons c rest =>
      cases f₂ with
      | zero => exact absurd h2 (by simp)
      | succ g =>
        simp only [stripImportsAux]
        cases hm : importMatchRest (c :: rest) with
        | some rest2 =>
          simp only [hm]
          have hlen := importMatchRest_length (c :: rest) rest2 hm
          have hlc : (c :: rest).length = rest.length + 1 := rfl
          exact ih g rest2 (by omega) (by omega)
        | none =>
          simp only [hm]
          have hr1 : rest.length ≤ f := by simp at h1; omega
          have hr2 : rest.length ≤ g := by simp at h2; omega
          exact congrArg (c :: ·) (ih g rest hr1 hr2)

theorem stripImports_cons_nomatch (c : Char) (rest : Str)
    (h : importMatchRest (c :: rest) = none) :
    stripImports (c :: rest) = c :: stripImports rest := by
  show stripImportsAux (rest.length + 1) (c :: rest) = c :: stripImportsAux rest.length rest
  simp only [stripImportsAux, h]

theorem stripImports_match (s rest2 : Str) (h : importMatchRest s = some rest2) :
    stripImports s = stripImports rest2 := by
  cases s with
  | nil =>
    rw [importMatchRest_none [] (by decide)] at h
    cases h
  | cons c rest =>
    show stripImportsAux (rest.length + 1) (c :: rest) = _
    simp only [stripImportsAux, h]
    exact stripImportsAux_congr _ _ _ (by
      have hlen := importMatchRest_length (c :: rest) rest2 h
      have hlc : (c :: rest).length = rest.length + 1 := rfl
      omega) (le_refl _)

theorem stripImports_of_not_contains (s : Str)
    (h : containsSub s importTag = false) : stripImports s = s := by
  induction s with
  | nil => rfl
  | cons c rest ih =>
    simp only [containsSub, Bool.or_eq_false_iff] at h
    rw [stripImports_cons_nomatch c rest (importMatchRest_none _ h.1), ih h.2]

theorem dropWhile_append_of_forall {p : Char → Bool} (x y : Str)
    (h : ∀ c ∈ x, p c = true) :
    List.dropWhile p (x ++ y) = List.dropWhile p y := by
  induction x with
  | nil => rfl
  | cons c xs ih =>
    simp only [List.cons_append, List.dropWhile_cons, h c (by simp)]
    exact ih (fun d hd => h d (by simp [hd]))

theorem importMatchRest_line (m b : Str) (hm : ∀ c ∈ m, isLineTerminator c = false) :
    importMatchRest (importTag ++ m ++ '\n' :: b) = some b := by
  unfold importMatchRest
  have hpre : importTag.isPrefixOf (importTag ++ m ++ '\n' :: b) = true := by
    rw [List.append_assoc]
    exact isPrefixOf_append_self _ _
  rw [hpre, if_pos rfl]
  have hdrop : (importTag ++ m ++ '\n' :: b).drop 7 = m ++ '\n' :: b := by
    rw [List.append_assoc, show (7 : Nat) = importTag.length from rfl]
    exact List.drop_left _ _
  rw [hdrop,
    dropWhile_append_of_forall m ('\n' :: b) (by intro c hc; simp [hm c hc]),
    List.dropWhile_cons]
  simp [isLineTerminator]

theorem stripImports_line (m b : Str) (hm : ∀ c ∈ m, isLineTerminator c = false) :
    stripImports (importTag ++ m ++ '\n' :: b) = stripImports b :=
  stripImports_match _ b (importMatchRest_line m b hm)

/-! ### Character-containment lemmas for the substitution passes -/

theorem not_containsSub_of_not_mem (c : Char) (s pat : Str)
    (hc : c ∈ pat) (hs : c ∉ s) : containsSub s pat = false := by
  cases h : containsSub s pat with
  | false => rfl
  | true =>
    rcases (containsSub_iff s pat).mp h with ⟨a, b, rfl⟩
    exact ((hs (by simp [hc])).elim)

theorem mem_replaceFirst (c : Char) (s pat rep : Str)
    (h : c ∈ replaceFirst s pat rep) : c ∈ s ∨ c ∈ rep := by
  induction s with
  | nil => simp [replaceFirst] at h
  | cons d rest ih =>
    simp only [replaceFirst] at h
    by_cases hp : pat.isPrefixOf (d :: rest) = true
    · rw [if_pos hp] at h
      rcases List.mem_append.mp h with h1 | h2
      · exact Or.inr h1
      · exact Or.inl (List.drop_subset _ _ h2)
    · rw [if_neg hp] at h
      rcases List.mem_cons.mp h with h1 | h2
      · exact Or.inl (by simp [h1])
      · rcases ih h2 with h3 | h3
        · exact Or.inl (by simp [h3])
        · exact Or.inr h3

/-! ### The GraphQL AST data model consumed by query.js

A `Selection` mirrors a node of `selectionSet.selections`: its `kind`
discriminator string, optional `name.value` and `alias.value`, the
`typeCondition.name.value` (meaningful for inline fragments), the `arguments`
array, and the nested `selectionSet` (`hasSub` false models an absent
`selectionSet`; `hasSub` true with list `sub` models a present one). -/

structure ValueNode where
  kind : String
  rawValue : Str
  varName : Str
  listValues : List (List (Str × Str))
deriving DecidableEq

structure Argument where
  name : Str
  value : ValueNode
deriving DecidableEq

mutual

inductive Selection : Type where
  | mk : String → Option Str → Option Str → Str → List Argument → Bool → SelList → Selection

inductive SelList : Type where
  | nil : SelList
  | cons : Selection → SelList → SelList

end

structure Definition where
  kind : String
  operation : Option String
  name : Str
  selections : SelList

structure Document where
  locBody : Str
  locEnd : Nat
  definitions : List Definition

/-- Rendering of `selection.name?.value` inside a template literal: an absent
    name interpolates as the text `undefined`. -/
def nameOrUndefined (n : Option Str) : Str := n.getD (lit "undefined")

/-- `buildListArgumentValue` from query.js: value of an argument that is a
    list of objects whose fields are string-valued. -/
def buildListArgumentValue (a : Argument) : Str :=
  lit "[" ++ joinSep (lit ", ")
    (a.value.listValues.map (fun obj =>
      lit "\x7b" ++ joinSep (lit ", ")
        (obj.map (fun f => f.1 ++ lit ": \"" ++ f.2 ++ lit "\"")) ++ lit "\x7d")) ++ lit "]"

/-- The argument serializer inside `buildFields`: `value` starts as the raw
    `argument.value.value` and is overridden by the `switch` on
    `argument.value.kind`. -/
def buildArgument (a : Argument) : Str :=
  let value :=
    if a.value.kind = "ListValue" then buildListArgumentValue a
    else if a.value.kind = "StringValue" then lit "\"" ++ a.value.rawValue ++ lit "\""
    else if a.value.kind = "Variable" then lit "$" ++ a.value.varName
    else a.value.rawValue
  a.name ++ lit ": " ++ value

mutual

/-- One selection of `buildFields` from query.js: header from alias/name,
    overridden for `InlineFragment` and `FragmentSpread`, then the argument
    list and the nested selection set are appended when present. -/
def buildField : Selection → Str
  | .mk kind name aliasName typeCond args hasSub sub =>
    let f0 :=
      match aliasName with
      | some a => a ++ lit ": " ++ nameOrUndefined name
      | none => nameOrUndefined name
    let f1 := if kind = "InlineFragment" then lit "... on " ++ typeCond else f0
    let f2 := if kind = "FragmentSpread" then lit "..." ++ nameOrUndefined name else f1
    let f3 :=
      if args.length ≠ 0 then
        f2 ++ lit "(" ++ joinSep (lit ", ") (args.map buildArgument) ++ lit ")"
      else f2
    if hasSub then f3 ++ lit " \x7b\n" ++ joinSep (lit "\n") (buildFields sub) ++ lit "\n\x7d"
    else f3

/-- `buildFields` from query.js (`selections.map(...)`). -/
def buildFields : SelList → List Str
  | .nil => []
  | .cons s rest => buildField s :: buildFields rest

end

/-! ### buildQuery -/

/-- The fragment spread token `...<name>`. -/
def spread (name : Str) : Str := lit "..." ++ name

/-- Association-list lookup, JS property read `obj[k]`. -/
def lookupAssoc {α : Type} (k : Str) : List (Str × α) → Option α
  | [] => none
  | (k', v) :: rest => if k' = k then some v else lookupAssoc k rest

/-- Association-list write, JS property assignment `obj[k] = v`: overwrites in
    place when the key exists (keeping insertion order), appends otherwise. -/
def setAssoc {α : Type} (k : Str) (v : α) : List (Str × α) → List (Str × α)
  | [] => [(k, v)]
  | (k', v') :: rest => if k' = k then (k', v) :: rest else (k', v') :: setAssoc k v rest

/-- The operation source: `astData.loc.source.body` with `#import` lines
    removed and the result trimmed. -/
def opSource (doc : Document) : Str := trim (stripImports doc.locBody)

/-- The `fragments` object of `buildQuery`: each `FragmentDefinition`'s
    selections rendered by `buildFields` and joined with newlines, keyed by
    fragment name in insertion order (`Object.entries` order). -/
def buildFragments (doc : Document) : List (Str × Str) :=
  doc.definitions.foldl
    (fun m d =>
      if d.kind = "FragmentDefinition" then
        setAssoc d.name (joinSep (lit "\n") (buildFields d.selections)) m
      else m) []

/-- The inner "Resolves nested fragments" loop of `buildQuery`.  Note the
    accumulator is discarded: each iteration recomputes
    `value.replace(`...${fragmentKey}`, fragmentValue)` from the original
    `value`, exactly as the source does (`formattedValue = value.replace(...)`). -/
def crossValue (fragments : List (Str × Str)) (value : Str) : Str :=
  fragments.foldl (fun _fv kv => replaceFirst value (spread kv.1) kv.2) value

/-- `buildQuery` from query.js: strip imports, trim, build the fragment map,
    run the cross-fragment pass on each fragment value and substitute the
    first occurrence of each `...<name>` in the operation body. -/
def buildQuery (doc : Document) : Str :=
  (buildFragments doc).foldl
    (fun q kv => replaceFirst q (spread kv.1) (crossValue (buildFragments doc) kv.2))
    (opSource doc)

/-! ### buildStorageKey -/

/-- A JS JSON value as it can appear in the `variables` map or a response's
    `data` field; modelled over the scalar shapes the client manipulates. -/
inductive Json where
  | null
  | bool (b : Bool)
  | num (n : Int)
  | str (s : Str)
deriving DecidableEq

/-- JS truthiness of a JSON value (`undefined` is handled at the `Option`
    level by the callers). -/
def truthy : Json → Bool
  | .null => false
  | .bool b => b
  | .num n => n != 0
  | .str s => !s.isEmpty

def escapeJsonChar (c : Char) : Str :=
  if c = '"' ∨ c = '\\' then ['\\', c] else [c]

/-- `JSON.stringify` of a single value. -/
def stringifyJson : Json → Str
  | .null => lit "null"
  | .bool true => lit "true"
  | .bool false => lit "false"
  | .num n => lit (toString n)
  | .str s => '"' :: (s.map escapeJsonChar).flatten ++ lit "\""

/-- `JSON.stringify` of the whole variables map (used to compare variable maps
    as JSON texts). -/
def jsonOfVariables (vs : List (Str × Json)) : Str :=
  lit "\x7b" ++ joinSep (lit ",")
    (vs.map (fun kv => stringifyJson (.str kv.1) ++ lit ":" ++ stringifyJson kv.2)) ++
    lit "\x7d"

/-- `definition.operation || 'fragment'` (JS falsy check: an absent or empty
    operation falls back to `fragment`). -/
def definitionType (d : Definition) : String :=
  match d.operation with
  | some op => if op = "" then "fragment" else op
  | none => "fragment"

def queryStringOf (doc : Document) : Str :=
  joinSep (lit "-")
    (doc.definitions.map (fun d => lit (definitionType d) ++ lit ":\"" ++ d.name ++ lit "\""))

def varStringOf (vs : List (Str × Json)) : Str :=
  joinSep (lit "-") (vs.map (fun kv => kv.1 ++ lit ":" ++ stringifyJson kv.2))

/-- `buildStorageKey` from query.js:
    `${queryString}-length:${astData.loc.end}-${variableString}`. -/
def buildStorageKey (doc : Document) (vs : List (Str × Json)) : Str :=
  queryStringOf doc ++ lit "-length:" ++ lit (toString doc.locEnd) ++ lit "-" ++
    varStringOf vs

/-! ### The default export: the request driver

One call of the default export is modelled as a pure function of the parsed
session-cache content (`store`, the result of
`JSON.parse(sessionStorage.getItem('query-cache'))`, `none` when the item is
absent) and of the HTTP response the fetch would produce (`resp`).  The result
records whether a request was issued and with what headers and body, the
outcome of the promise, the final cache content and the final state of the
caller's `variables` object (which the driver mutates in place). -/

structure FetchResponse where
  ok : Bool
  description : String
  data : Json
deriving DecidableEq

structure RequestData where
  headers : List (Str × Str)
  bodyQuery : Str
  bodyVariables : List (Str × Json)
deriving DecidableEq

inductive Outcome where
  | resolved (data : Json)
  | rejectedHttp (description : String)
  | rejectedError
deriving DecidableEq

structure QueryResult where
  request : Option RequestData
  outcome : Outcome
  finalStore : Option (List (Str × Json))
  finalVars : List (Str × Json)
deriving DecidableEq

def baseHeaders : List (Str × Str) :=
  [(lit "Accept", lit "application/json"),
   (lit "Content-Type", lit "application/json"),
   (lit "X-Shopify-Storefront-Access-Token", lit "storefront_api_token")]

def languageKey : Str := lit "language"

/-- `variables.language.toUpperCase().replaceAll('-', '_')`. -/
def formatLanguage (s : Str) : Str :=
  (s.map Char.toUpper).map (fun c => if c = '-' then '_' else c)

/-- The language-normalization block of the driver: when `variables.language`
    is truthy, `Accept-Language` is set to the raw value and
    `variables.language` is overwritten with the formatted value.  A truthy
    non-string `language` makes `toUpperCase` throw (`none` result, caught by
    the driver's `try`/`catch`). -/
def normalizeLanguage (vs : List (Str × Json)) :
    Option (List (Str × Json) × List (Str × Str)) :=
  match lookupAssoc languageKey vs with
  | some v =>
    if truthy v then
      match v with
      | .str s =>
        some (setAssoc languageKey (.str (formatLanguage s)) vs,
          baseHeaders ++ [(lit "Accept-Language", s)])
      | _ => none
    else some (vs, baseHeaders)
  | none => some (vs, baseHeaders)

/-- The fetch-and-resolve tail of the driver: on a non-ok response the promise
    rejects with `response.description` and the cache is untouched; on an ok
    response the data is stored under the key (when `useCache`) and the
    promise resolves with it. -/
def doFetch (doc : Document) (vars1 : List (Str × Json)) (headers : List (Str × Str))
    (useCache : Bool) (store : Option (List (Str × Json))) (resp : FetchResponse)
    (key : Str) : QueryResult :=
  if resp.ok then
    { request := some { headers := headers, bodyQuery := buildQuery doc, bodyVariables := vars1 },
      outcome := .resolved resp.data,
      finalStore := if useCache then some (setAssoc key resp.data (store.getD [])) else store,
      finalVars := vars1 }
  else
    { request := some { headers := headers, bodyQuery := buildQuery doc, bodyVariables := vars1 },
      outcome := .rejectedHttp resp.description,
      finalStore := store, finalVars := vars1 }

/-- The cache consultation and fetch of the driver, after language
    normalization: `useCache && queryCache && queryCache[storageKey]` (all
    three JS-truthy) short-circuits to the cached entry. -/
def runQuery (doc : Document) (vars1 : List (Str × Json)) (headers : List (Str × Str))
    (useCache : Bool) (store : Option (List (Str × Json))) (resp : FetchResponse) :
    QueryResult :=
  match store.bind (fun cacheObj => lookupAssoc (buildStorageKey doc vars1) cacheObj) with
  | some entry =>
    if useCache && truthy entry then
      { request := none, outcome := .resolved entry, finalStore := store, finalVars := vars1 }
    else doFetch doc vars1 headers useCache store resp (buildStorageKey doc vars1)
  | none => doFetch doc vars1 headers useCache store resp (buildStorageKey doc vars1)

/-- The default export `Query({ query, variables }, useCache)`. -/
def Query (doc : Document) (vs : List (Str × Json)) (useCache : Bool)
    (store : Option (List (Str × Json))) (resp : FetchResponse) : QueryResult :=
  match normalizeLanguage vs with
  | some (vars1, headers) => runQuery doc vars1 headers useCache store resp
  | none =>
    { request := none, outcome := .rejectedError, finalStore := store, finalVars := vs }

/-! ### Lemmas about the driver -/

theorem lookupAssoc_setAssoc_self {α : Type} (k : Str) (v : α) (l : List (Str × α)) :
    lookupAssoc k (setAssoc k v l) = some v := by
  induction l with
  | nil => simp [setAssoc, lookupAssoc]
  | cons kv rest ih =>
    obtain ⟨k', v'⟩ := kv
    by_cases h : k' = k
    · simp [setAssoc, lookupAssoc, h]
    · simp [setAssoc, lookupAssoc, h, ih]

theorem runQuery_finalVars (doc : Document) (vars1 : List (Str × Json))
    (headers : List (Str × Str)) (useCache : Bool) (store : Option (List (Str × Json)))
    (resp : FetchResponse) :
    (runQuery doc vars1 headers useCache store resp).finalVars = vars1 := by
  unfold runQuery doFetch
  split
  · split
    · rfl
    · split <;> rfl
  · split <;> rfl

theorem runQuery_request_shape (doc : Document) (vars1 : List (Str × Json))
    (headers : List (Str × Str)) (useCache : Bool) (store : Option (List (Str × Json)))
    (resp : FetchResponse) :
    (runQuery doc vars1 headers useCache store resp).request = none ∨
    (runQuery doc vars1 headers useCache store resp).request =
      some { headers := headers, bodyQuery := buildQuery doc, bodyVariables := vars1 } := by
  unfold runQuery doFetch
  split
  · split
    · exact Or.inl rfl
    · split
      · exact Or.inr rfl
      · exact Or.inr rfl
  · split
    · exact Or.inr rfl
    · exact Or.inr rfl

theorem runQuery_not_ok (doc : Document) (vars1 : List (Str × Json))
    (headers : List (Str × Str)) (useCache : Bool) (store : Option (List (Str × Json)))
    (resp : FetchResponse) (hok : resp.ok = false) :
    (runQuery doc vars1 headers useCache store resp).request = none ∨
    ((runQuery doc vars1 headers useCache store resp).outcome =
        Outcome.rejectedHttp resp.description ∧
      (runQuery doc vars1 headers useCache store resp).finalStore = store) := by
  unfold runQuery doFetch
  split
  · split
    · exact Or.inl rfl
    · rw [if_neg (by rw [hok]; simp)]
      exact Or.inr ⟨rfl, rfl⟩
  · rw [if_neg (by rw [hok]; simp)]
    exact Or.inr ⟨rfl, rfl⟩

/-! ### Concrete documents used as inputs -/

def fieldSel (n : String) : Selection :=
  .mk "Field" (some (lit n)) none (lit "") [] false .nil

def spreadSel (n : String) : Selection :=
  .mk "FragmentSpread" (some (lit n)) none (lit "") [] false .nil

def selListOf : List Selection → SelList
  | [] => .nil
  | s :: rest => .cons s (selListOf rest)

def opDef (n : String) : Definition :=
  { kind := "OperationDefinition", operation := some "query", name := lit n,
    selections := SelList.nil }

def fragDef (n : String) (sels : List Selection) : Definition :=
  { kind := "FragmentDefinition", operation := none, name := lit n,
    selections := selListOf sels }

/-- Document whose fragment `C` spreads the two other fragments `A` and `B`. -/
def docC1 : Document :=
  { locBody := lit "query Q \x7b\n...C\n\x7d", locEnd := 70,
    definitions :=
      [opDef "Q", fragDef "A" [fieldSel "a1"], fragDef "B" [fieldSel "b1"],
        fragDef "C" [spreadSel "A", spreadSel "B"]] }

/-! ### Fold lemmas for the fragment-inlining passes -/

theorem mem_crossValue_fold (c : Char) (v : Str) (L : List (Str × Str)) :
    ∀ acc : Str,
      c ∈ List.foldl (fun _fv kv => replaceFirst v (spread kv.1) kv.2) acc L →
      c ∈ acc ∨ c ∈ v ∨ ∃ kv ∈ L, c ∈ kv.2 := by
  induction L with
  | nil =>
    intro acc h
    exact Or.inl h
  | cons kv rest ih =>
    intro acc h
    rw [List.foldl_cons] at h
    rcases ih _ h with h1 | h2 | ⟨kv2, hkv2, hc2⟩
    · rcases mem_replaceFirst c v (spread kv.1) kv.2 h1 with h3 | h3
      · exact Or.inr (Or.inl h3)
      · exact Or.inr (Or.inr ⟨kv, by simp, h3⟩)
    · exact Or.inr (Or.inl h2)
    · exact Or.inr (Or.inr ⟨kv2, by simp [hkv2], hc2⟩)

theorem mem_crossValue (c : Char) (frags : List (Str × Str)) (v : Str)
    (h : c ∈ crossValue frags v) : c ∈ v ∨ ∃ kv ∈ frags, c ∈ kv.2 := by
  rcases mem_crossValue_fold c v frags v h with h1 | h1 | h1
  · exact Or.inl h1
  · exact Or.inl h1
  · exact Or.inr h1

theorem mem_inline_fold (c : Char) (all : List (Str × Str)) :
    ∀ (L : List (Str × Str)) (q : Str),
      c ∈ List.foldl (fun acc kv => replaceFirst acc (spread kv.1) (crossValue all kv.2)) q L →
      c ∈ q ∨ ∃ kv ∈ L, c ∈ crossValue all kv.2 := by
  intro L
  induction L with
  | nil =>
    intro q h
    exact Or.inl h
  | cons kv rest ih =>
    intro q h
    rw [List.foldl_cons] at h
    rcases ih _ h with h1 | ⟨kv2, hkv2, hc2⟩
    · rcases mem_replaceFirst c q (spread kv.1) (crossValue all kv.2) h1 with h2 | h2
      · exact Or.inl h2
      · exact Or.inr ⟨kv, by simp, h2⟩
    · exact Or.inr ⟨kv2, by simp [hkv2], hc2⟩

/-- Minimal document: one named query operation, no fragments. -/
def docMin : Document :=
  { locBody := lit "query Q \x7b\nid\n\x7d", locEnd := 15, definitions := [opDef "Q"] }

/-- Claim C1: in buildQuery's cross-fragment inlining step, every other
fragment's first `...<otherName>` occurrence is claimed to be replaced before
substitution into the operation, so a fragment body spreading two distinct
other fragments should have both spreads expanded.  The source instead
recomputes `formattedValue = value.replace(...)` from the unmodified `value`
on every inner iteration, so only the last iteration survives; on `docC1`
(fragments `A`, `B`, and `C` = `...A\n...B`) the last iteration replaces the
absent `...C`, and the substituted text still contains both spreads. -/
theorem buildQuery_crossInlining_discards_earlier_replacements :
    buildQuery docC1 = lit "query Q \x7b\n...A\n...B\n\x7d" ∧
    containsSub (buildQuery docC1) (spread (lit "A")) = true ∧
    containsSub (buildQuery docC1) (spread (lit "B")) = true := by decide

/-- Variable maps whose rendered `<name>:<JSON-of-value>` tokens concatenate
    to the same `variableString`. -/
def varsC2a : List (Str × Json) := [(lit "a", Json.num 1), (lit "b", Json.num 2)]

def varsC2b : List (Str × Json) := [(lit "a:1-b", Json.num 2)]

/-- Claim C2, counterexample: `{"a":1,"b":2}` and `{"a:1-b":2}` have different
JSON serializations but identical storage keys (both variable strings render
as `a:1-b:2`), so the key is not injective in the JSON of the variables. -/
theorem buildStorageKey_not_injective_on_json :
    jsonOfVariables varsC2a ≠ jsonOfVariables varsC2b ∧
    buildStorageKey docMin varsC2a = buildStorageKey docMin varsC2b := by decide

/-- Claim C2 (amended): the cache key is a pure function of the document and
variables, and it is injective in the rendered variable string: two variable
maps with different `variableString` renderings give different keys for the
same document.  (Injectivity in the JSON serialization itself fails, see the
counterexample.) -/
theorem buildStorageKey_pure_and_injective_in_varString :
    (∀ (doc : Document) (v : List (Str × Json)),
      buildStorageKey doc v = buildStorageKey doc v) ∧
    (∀ (doc : Document) (v1 v2 : List (Str × Json)),
      varStringOf v1 ≠ varStringOf v2 →
      buildStorageKey doc v1 ≠ buildStorageKey doc v2) := by
  refine ⟨fun _ _ => rfl, fun doc v1 v2 hne heq => hne ?_⟩
  unfold buildStorageKey at heq
  exact List.append_cancel_left heq

/-- Witness for the amended C2 at concrete inputs. -/
theorem buildStorageKey_varString_injective_witness :
    varStringOf [(lit "a", Json.num 1)] ≠ varStringOf [] ∧
    buildStorageKey docMin [(lit "a", Json.num 1)] ≠ buildStorageKey docMin [] :=
  ⟨by decide,
    buildStorageKey_pure_and_injective_in_varString.2 docMin
      [(lit "a", Json.num 1)] [] (by decide)⟩

def respOkFresh : FetchResponse :=
  { ok := true, description := "", data := Json.str (lit "fresh") }

/-- Claim C3, counterexample: the session cache contains an entry (`null`)
under the computed storage key, yet the driver issues a request, because the
hit test is the JS truthiness of `queryCache[storageKey]` and `null` is falsy;
the call resolves with the fresh network data, not the cached entry. -/
theorem cache_hit_falsy_entry_issues_request :
    (Query docMin [] true (some [(buildStorageKey docMin [], Json.null)])
        respOkFresh).request ≠ none ∧
    (Query docMin [] true (some [(buildStorageKey docMin [], Json.null)])
        respOkFresh).outcome = Outcome.resolved (Json.str (lit "fresh")) := by decide

/-- Claim C3 (amended): when `useCache = true` and the parsed session cache
holds a truthy entry (not `null`, `false`, `0` or the empty string) under the
storage key computed from the normalized variables, no HTTP request is issued
and the call resolves with that cached entry. -/
theorem cache_hit_truthy_entry_short_circuits (doc : Document) (vs vars1 : List (Str × Json))
    (headers : List (Str × Str)) (cacheObj : List (Str × Json)) (entry : Json)
    (resp : FetchResponse)
    (hn : normalizeLanguage vs = some (vars1, headers))
    (hentry : lookupAssoc (buildStorageKey doc vars1) cacheObj = some entry)
    (htruthy : truthy entry = true) :
    (Query doc vs true (some cacheObj) resp).request = none ∧
    (Query doc vs true (some cacheObj) resp).outcome = Outcome.resolved entry := by
  constructor <;> simp [Query, hn, runQuery, hentry, htruthy]

def cachedEntryC3 : Json := Json.str (lit "cached")

/-- Witness for the amended C3 at concrete inputs. -/
theorem cache_hit_truthy_entry_witness :
    (Query docMin [] true (some [(buildStorageKey docMin [], cachedEntryC3)])
        respOkFresh).request = none ∧
    (Query docMin [] true (some [(buildStorageKey docMin [], cachedEntryC3)])
        respOkFresh).outcome = Outcome.resolved cachedEntryC3 :=
  cache_hit_truthy_entry_short_circuits docMin [] [] baseHeaders
    [(buildStorageKey docMin [], cachedEntryC3)] cachedEntryC3 respOkFresh
    (by decide) (by decide) (by decide)

/-- An argument node with a string literal value. -/
def strArg (n v : String) : Argument :=
  { name := lit n,
    value := { kind := "StringValue", rawValue := lit v, varName := lit "", listValues := [] } }

/-- A FragmentSpread selection node that (adversarially) carries an argument
    list and a nested selection set. -/
def selC5 : Selection :=
  .mk "FragmentSpread" (some (lit "X")) (some (lit "al")) (lit "")
    [strArg "a" "v"] true (selListOf [fieldSel "id"])

/-- Claim C5, counterexample: for a FragmentSpread selection carrying an
arguments list and a selectionSet, buildFields does not stop at `...X`: the
argument list and the nested selection set are still processed and appended. -/
theorem fragmentSpread_processes_arguments_and_children :
    buildFields (selListOf [selC5]) = [lit "...X(a: \"v\") \x7b\nid\n\x7d"] ∧
    buildFields (selListOf [selC5]) ≠ [lit "...X"] := by decide

/-- Claim C5 (amended): a FragmentSpread selection renders the header
`...<name>`, overriding any name/alias; the argument and nested-selection
steps are not skipped, but when the node carries no arguments and no selection
set — as FragmentSpread nodes produced by a GraphQL parser do — the selection
renders exactly `...<name>`. -/
theorem fragmentSpread_renders_spread_token (name aliasName : Option Str) (tc : Str)
    (sub : SelList) :
    buildField (Selection.mk "FragmentSpread" name aliasName tc [] false sub) =
      lit "..." ++ nameOrUndefined name := by
  simp [buildField]

/-- Operation source whose final line is an `#import` directive with no
    trailing newline. -/
def docC6 : Document :=
  { locBody := lit "query Q \x7b\nid\n\x7d\n#import \"./f.gql\"", locEnd := 40,
    definitions := [opDef "Q"] }

/-- Claim C6, counterexample: the regex `/#import.*\n/g` requires a trailing
newline, so an `#import` directive on the final line without one survives into
the built query, which therefore contains `#import`. -/
theorem strip_imports_misses_final_line :
    containsSub (buildQuery docC6) importTag = true ∧
    buildQuery docC6 = lit "query Q \x7b\nid\n\x7d\n#import \"./f.gql\"" := by decide

/-- Claim C6 (amended): buildQuery removes every `#import` line terminated by
a bare `\n` — the ECMAScript `.` matches no line terminator, so a directive
ended by `\r\n` or sitting on the final line with no trailing newline is
kept (see the counterexample for the latter).  When the operation source
begins with such a newline-terminated directive and the character `#` occurs
neither in the remainder nor in any fragment's rendered body, the operation
body entering fragment substitution is exactly the trimmed remainder, and the
built query — fragment substitutions included — contains no occurrence of
`#import`. -/
theorem strip_imports_amended (doc : Document) (m b : Str)
    (hbody : doc.locBody = importTag ++ m ++ '\n' :: b)
    (hm : ∀ c ∈ m, isLineTerminator c = false)
    (hb : '#' ∉ b)
    (hfragsh : ∀ kv ∈ buildFragments doc, '#' ∉ kv.2) :
    opSource doc = trim b ∧ containsSub (buildQuery doc) importTag = false := by
  have hbi : containsSub b importTag = false :=
    not_containsSub_of_not_mem '#' b importTag (by decide) hb
  have hop : opSource doc = trim b := by
    unfold opSource
    rw [hbody, stripImports_line m b hm, stripImports_of_not_contains b hbi]
  refine ⟨hop, ?_⟩
  have htb : '#' ∉ trim b := by
    intro hmem
    rcases trim_split b with ⟨x, y, hxy⟩
    have hmb : '#' ∈ b := by
      rw [hxy]
      simp [hmem]
    exact hb hmb
  have hq : '#' ∉ buildQuery doc := by
    intro hmem
    unfold buildQuery at hmem
    rw [hop] at hmem
    rcases mem_inline_fold '#' (buildFragments doc) (buildFragments doc) (trim b) hmem with
      h1 | ⟨kv, hkv, hc⟩
    · exact htb h1
    · rcases mem_crossValue '#' (buildFragments doc) kv.2 hc with h2 | ⟨kv2, hkv2, hc2⟩
      · exact hfragsh kv hkv h2
      · exact hfragsh kv2 hkv2 hc2
  exact not_containsSub_of_not_mem '#' (buildQuery doc) importTag (by decide) hq

/-- Operation source that begins with a newline-terminated `#import` line and
    spreads the imported fragment in the query body. -/
def docC6w : Document :=
  { locBody := lit "#import \"./fragments.gql\"\n\nquery Q \x7b\n...F\n\x7d", locEnd := 45,
    definitions := [opDef "Q", fragDef "F" [fieldSel "id"]] }

/-- Witness for the amended C6 at concrete inputs (a fragment substitution
    does fire on the stripped body). -/
theorem strip_imports_witness :
    opSource docC6w = trim (lit "\nquery Q \x7b\n...F\n\x7d") ∧
    containsSub (buildQuery docC6w) importTag = false :=
  strip_imports_amended docC6w (lit " \"./fragments.gql\"") (lit "\nquery Q \x7b\n...F\n\x7d")
    (by decide) (by decide) (by decide) (by decide)

/-- Claim C7: when `variables.language = "zh-CN"`, an issued request carries
header `Accept-Language: zh-CN` (kebab-case preserved) while the request
body's `variables.language` is `ZH_CN` (uppercased, `-` replaced by `_`). -/
theorem language_normalization_header_and_body (doc : Document) (vs : List (Str × Json))
    (useCache : Bool) (store : Option (List (Str × Json))) (resp : FetchResponse)
    (req : RequestData)
    (hlang : lookupAssoc languageKey vs = some (Json.str (lit "zh-CN")))
    (hreq : (Query doc vs useCache store resp).request = some req) :
    (lit "Accept-Language", lit "zh-CN") ∈ req.headers ∧
    lookupAssoc languageKey req.bodyVariables = some (Json.str (lit "ZH_CN")) := by
  have hn : normalizeLanguage vs =
      some (setAssoc languageKey (Json.str (lit "ZH_CN")) vs,
        baseHeaders ++ [(lit "Accept-Language", lit "zh-CN")]) := by
    unfold normalizeLanguage
    rw [hlang]
    simp [(by decide : truthy (Json.str (lit "zh-CN")) = true),
      (by decide : formatLanguage (lit "zh-CN") = lit "ZH_CN")]
  simp only [Query, hn] at hreq
  rcases runQuery_request_shape doc (setAssoc languageKey (Json.str (lit "ZH_CN")) vs)
      (baseHeaders ++ [(lit "Accept-Language", lit "zh-CN")]) useCache store resp with
    hsh | hsh
  · rw [hsh] at hreq; cases hreq
  · rw [hsh] at hreq
    injection hreq with hreqq
    rw [← hreqq]
    exact ⟨by simp, lookupAssoc_setAssoc_self languageKey (Json.str (lit "ZH_CN")) vs⟩

def varsC7 : List (Str × Json) := [(languageKey, Json.str (lit "zh-CN"))]

def reqC7 : RequestData :=
  { headers := baseHeaders ++ [(lit "Accept-Language", lit "zh-CN")],
    bodyQuery := buildQuery docMin,
    bodyVariables := [(languageKey, Json.str (lit "ZH_CN"))] }

/-- Witness for C7 at concrete inputs. -/
theorem language_normalization_witness :
    (lit "Accept-Language", lit "zh-CN") ∈ reqC7.headers ∧
    lookupAssoc languageKey reqC7.bodyVariables = some (Json.str (lit "ZH_CN")) :=
  language_normalization_header_and_body docMin varsC7 false none respOkFresh reqC7
    (by decide) (by decide)

/-- The argument rendering exactly as the specification's table states it
    (string literals quoted, variables as `$name`, list values as bracketed
    object literals with string-quoted fields, anything else as the raw value
    unquoted); a separate definition written from the spec's words, to be
    compared with the source's `buildArgument`. -/
def renderArgumentSpec (a : Argument) : Str :=
  a.name ++ lit ": " ++
    (if a.value.kind = "StringValue" then lit "\"" ++ a.value.rawValue ++ lit "\""
     else if a.value.kind = "Variable" then lit "$" ++ a.value.varName
     else if a.value.kind = "ListValue" then
       lit "[" ++ joinSep (lit ", ")
         (a.value.listValues.map (fun obj =>
           lit "\x7b" ++ joinSep (lit ", ")
             (obj.map (fun f => f.1 ++ lit ": \"" ++ f.2 ++ lit "\"")) ++ lit "\x7d")) ++
         lit "]"
     else a.value.rawValue)

/-- Claim C8: the source's argument serializer agrees with the
specification's rendering table on every argument node. -/
theorem buildArgument_matches_spec_rendering :
    ∀ a : Argument, buildArgument a = renderArgumentSpec a := by
  intro a
  unfold buildArgument renderArgumentSpec buildListArgumentValue
  by_cases h1 : a.value.kind = "ListValue" <;>
    by_cases h2 : a.value.kind = "StringValue" <;>
      by_cases h3 : a.value.kind = "Variable" <;>
        simp_all

/-- Claim C9: a call that issues a request and receives a non-ok response
rejects with the response's description and leaves the session cache
unchanged. -/
theorem non_ok_rejects_and_preserves_cache (doc : Document) (vs : List (Str × Json))
    (useCache : Bool) (store : Option (List (Str × Json))) (resp : FetchResponse)
    (req : RequestData)
    (hreq : (Query doc vs useCache store resp).request = some req)
    (hok : resp.ok = false) :
    (Query doc vs useCache store resp).outcome = Outcome.rejectedHttp resp.description ∧
    (Query doc vs useCache store resp).finalStore = store := by
  cases hn : normalizeLanguage vs with
  | none => simp [Query, hn] at hreq
  | some pair =>
    obtain ⟨vars1, headers⟩ := pair
    simp only [Query, hn] at hreq ⊢
    rcases runQuery_not_ok doc vars1 headers useCache store resp hok with h | h
    · rw [h] at hreq; cases hreq
    · exact h

def respBad : FetchResponse :=
  { ok := false, description := "Bad Request", data := Json.null }

def reqC9 : RequestData :=
  { headers := baseHeaders, bodyQuery := buildQuery docMin, bodyVariables := [] }

/-- Witness for C9 at concrete inputs. -/
theorem non_ok_rejects_witness :
    (Query docMin [] true none respBad).outcome = Outcome.rejectedHttp "Bad Request" ∧
    (Query docMin [] true none respBad).finalStore = none :=
  non_ok_rejects_and_preserves_cache docMin [] true none respBad reqC9
    (by decide) (by decide)

/-- Claim C10: when the caller's variables map has a (string) `language`
entry, the map is mutated in place: whatever the outcome of the call, the
final `language` value is the uppercased, dash-to-underscore form of the
original. -/
theorem variables_language_mutated_in_place (doc : Document) (vs : List (Str × Json))
    (useCache : Bool) (store : Option (List (Str × Json))) (resp : FetchResponse) (s : Str)
    (hlang : lookupAssoc languageKey vs = some (Json.str s)) :
    lookupAssoc languageKey (Query doc vs useCache store resp).finalVars =
      some (Json.str (formatLanguage s)) := by
  cases hse : s.isEmpty with
  | true =>
    have hs0 : s = [] := by
      cases s with
      | nil => rfl
      | cons c rest => simp [List.isEmpty] at hse
    subst hs0
    have hn : normalizeLanguage vs = some (vs, baseHeaders) := by
      unfold normalizeLanguage
      rw [hlang]
      simp [truthy]
    simp only [Query, hn]
    rw [runQuery_finalVars]
    exact hlang
  | false =>
    have hn : normalizeLanguage vs =
        some (setAssoc languageKey (Json.str (formatLanguage s)) vs,
          baseHeaders ++ [(lit "Accept-Language", s)]) := by
      unfold normalizeLanguage
      rw [hlang]
      simp [truthy, hse]
    simp only [Query, hn]
    rw [runQuery_finalVars]
    exact lookupAssoc_setAssoc_self languageKey (Json.str (formatLanguage s)) vs

/-- Witness for C10 at concrete inputs. -/
theorem variables_language_mutated_witness :
    lookupAssoc languageKey (Query docMin varsC7 true none respOkFresh).finalVars =
      some (Json.str (formatLanguage (lit "zh-CN"))) :=
  variables_language_mutated_in_place docMin varsC7 true none respOkFresh (lit "zh-CN")
    (by decide)
